import Mathlib

/-!
Verification of the trade-agent-brain conversational runtime.

This file gives a shallow embedding of the four components the claims are
about, translated from the Python sources:

* `app/middleware/quality_guard_middleware.py` — the response quality guard
  (`evaluateResponse`, `wrapModelCall`).  Scores are modelled in integer
  hundredths: the source's float constants (1.0, 0.15, 0.4, 0.5, 0.2, 0.1,
  0.6) are all exact multiples of 0.01, so 1.0 ↦ 100, 0.15 ↦ 15, and so on.
* `app/middleware/memory_middleware.py` — history recovery and summary
  compaction (`recoverHistoryNoSummary`, `splitMessages`, `beforeModel`).
* `app/agents/interrupt_handler.py` — the email human-in-the-loop decision
  handler (`handleEmailDecision`).
* `app/agents/orchestrator.py` — the session registry
  (`create_cross_border_agent`), modelled as a step relation over the states
  of n concurrent callers sharing one cache and one construction lock.

External collaborators (the chat model, MySQL, Milvus) are modelled as
oracles: the model's reply for a given attempt, the summary text produced
for a prefix, and the list of rows persisted for a session are parameters
of the embedded functions.
-/

namespace TradeAgent

/-! ## Quality guard: string scanning primitives

The guard's phrase check is Python's `phrase in content` (substring test),
and its privacy check runs the two regexes
`\b\d{4}[\s-]?\d{4}[\s-]?\d{4}[\s-]?\d{4}\b` and `\b1[3-9]\d{9}\b` with
`re.search`.  They are embedded as direct scanners over the character list;
`\w` (for `\b`) is modelled on the character classes that occur in this
code base: ASCII alphanumerics, underscore, and CJK ideographs (the same
U+4E00–U+9FFF range the guard's language heuristic uses). -/

/-- Boolean test that `p` is a prefix of the second list (character-wise). -/
def strPrefixOf : List Char → List Char → Bool
  | [], _ => true
  | _ :: _, [] => false
  | c :: cs, d :: ds => c == d && strPrefixOf cs ds

/-- Boolean test that `n` occurs contiguously inside the second list. -/
def strInfixOf (n : List Char) : List Char → Bool
  | [] => strPrefixOf n []
  | c :: cs => strPrefixOf n (c :: cs) || strInfixOf n cs

/-- Python's `needle in haystack` substring containment. -/
def containsSubstr (needle haystack : String) : Bool :=
  strInfixOf needle.toList haystack.toList

/-- ASCII decimal digit, the `\d` class as used by the two patterns. -/
def isAsciiDigit (c : Char) : Bool := '0' ≤ c && c ≤ '9'

/-- CJK ideograph range `'一' <= c <= '鿿'` from the source. -/
def isCJK (c : Char) : Bool := 0x4e00 ≤ c.toNat && c.toNat ≤ 0x9fff

/-- Word character for `\b`: ASCII alphanumerics, `_`, or a CJK ideograph. -/
def isWordChar (c : Char) : Bool := c.isAlphanum || c == '_' || isCJK c

/-- The `[\s-]` separator class of the card pattern (ASCII whitespace). -/
def isSepChar (c : Char) : Bool :=
  c == '-' || c == ' ' || c == '\t' || c == '\n' || c == '\r' ||
  c == '\x0b' || c == '\x0c'

/-- Consume exactly four ASCII digits, returning the rest of the input. -/
def takeDigits4 : List Char → Option (List Char)
  | c1 :: c2 :: c3 :: c4 :: rest =>
    if isAsciiDigit c1 && isAsciiDigit c2 && isAsciiDigit c3 && isAsciiDigit c4 then
      some rest
    else none
  | _ => none

/-- Consume exactly `k` ASCII digits, returning the rest of the input. -/
def digitsRun : Nat → List Char → Option (List Char)
  | 0, rest => some rest
  | _ + 1, [] => none
  | k + 1, c :: rest => if isAsciiDigit c then digitsRun k rest else none

/-- The closing `\b`: end of input or a non-word character follows.  (The
character before the boundary is always a digit, hence a word character.) -/
def endBoundary : List Char → Bool
  | [] => true
  | c :: _ => !isWordChar c

/-- Match `([\s-]?\d{4}){k}\b`: `k` further four-digit groups, each with an
optional separator, then a word boundary.  Both alternatives of the
optional separator are tried, matching the regex's backtracking. -/
def cardGroups : Nat → List Char → Bool
  | 0, rest => endBoundary rest
  | k + 1, rest =>
    (match takeDigits4 rest with
     | some r => cardGroups k r
     | none => false)
    ||
    (match rest with
     | c :: r =>
       if isSepChar c then
         match takeDigits4 r with
         | some r2 => cardGroups k r2
         | none => false
       else false
     | [] => false)

/-- Match the card-number pattern at the current position. -/
def cardAt (cs : List Char) : Bool :=
  match takeDigits4 cs with
  | some r => cardGroups 3 r
  | none => false

/-- Match the Chinese mobile-phone pattern `1[3-9]\d{9}\b` at the current
position. -/
def phoneAt : List Char → Bool
  | c1 :: c2 :: rest =>
    if c1 == '1' && ('3' ≤ c2 && c2 ≤ '9') then
      match digitsRun 9 rest with
      | some r => endBoundary r
      | none => false
    else false
  | _ => false

/-- The opening `\b` before a digit: start of input or a preceding non-word
character. -/
def boundaryOk : Option Char → Bool
  | none => true
  | some p => !isWordChar p

/-- `re.search`: try the matcher at every position, tracking the previous
character for the opening word boundary. -/
def scanFrom (m : List Char → Bool) : Option Char → List Char → Bool
  | _, [] => false
  | prev, c :: rest => (boundaryOk prev && m (c :: rest)) || scanFrom m (some c) rest

/-- Search for the card-number pattern anywhere in the string. -/
def searchCard (s : String) : Bool := scanFrom cardAt none s.toList

/-- Search for the phone-number pattern anywhere in the string. -/
def searchPhone (s : String) : Bool := scanFrom phoneAt none s.toList

/-- The source iterates `PRIVACY_PATTERNS` and breaks at the first match:
the flag is set iff either pattern matches. -/
def privacyHit (content : String) : Bool := searchCard content || searchPhone content

/-! ## Quality guard: evaluation and retry loop -/

/-- Python's `str.strip()` whitespace class, restricted to ASCII. -/
def isPyWhitespace (c : Char) : Bool :=
  c == ' ' || c == '\t' || c == '\n' || c == '\r' || c == '\x0b' || c == '\x0c'

/-- Python's `str.strip()`: drop whitespace from both ends. -/
def pyStrip (s : String) : String :=
  ⟨((s.data.dropWhile isPyWhitespace).reverse.dropWhile isPyWhitespace).reverse⟩

/-- `ResponseQualityGuardMiddleware.HALLUCINATION_PHRASES`. -/
def hallucinationPhrases : List String :=
  ["作为一个AI", "作为AI模型", "作为人工智能",
   "我无法确定", "我没有能力",
   "As an AI", "I cannot determine"]

/-- `ResponseQualityGuardMiddleware._evaluate_response`, scores in integer
hundredths (1.0 ↦ 100).  Returns the score (floored at 0) and the ordered
issue list.  The ratio test `chinese_chars / len(content) < 0.15` is the
exact inequality `100 * chinese < 15 * len` (len > 50 > 0 in that branch). -/
def evaluateResponse (content : String) : Int × List String :=
  if content = "" || (pyStrip content).length < 10 then
    (0, ["empty_response"])
  else
    let hallucinationCount :=
      (hallucinationPhrases.filter (fun p => containsSubstr p content)).length
    let hallucinationPenalty : Int :=
      if 0 < hallucinationCount then
        if (hallucinationCount : Int) * 15 ≤ 40 then (hallucinationCount : Int) * 15 else 40
      else 0
    let privacyPenalty : Int := if privacyHit content then 50 else 0
    let chineseChars := (content.toList.filter isCJK).length
    let languageMismatch : Bool :=
      50 < content.length && 100 * chineseChars < 15 * content.length
    let languagePenalty : Int := if languageMismatch then 20 else 0
    let tooShort : Bool := 10 < (pyStrip content).length && (pyStrip content).length < 30
    let shortPenalty : Int := if tooShort then 10 else 0
    let issues :=
      (if 0 < hallucinationCount then
        ["hallucination_phrases(" ++ toString hallucinationCount ++ ")"] else [])
      ++ (if privacyHit content then ["privacy_leak"] else [])
      ++ (if languageMismatch then ["language_mismatch"] else [])
      ++ (if tooShort then ["too_short"] else [])
    let score : Int := 100 - hallucinationPenalty - privacyPenalty - languagePenalty - shortPenalty
    (if score < 0 then 0 else score, issues)

/-- Configuration of `ResponseQualityGuardMiddleware` (`max_retries`,
`min_score` in hundredths; the deployed values are 2 and 60). -/
structure GuardConfig where
  maxRetries : Nat
  minScore : Int
deriving DecidableEq

/-- A model response as the guard sees it: `text` is the result of
`_extract_content` (`none` for tool-call/non-text responses), `tag`
distinguishes response objects. -/
structure GuardResponse where
  text : Option String
  tag : Nat
deriving DecidableEq

/-- Which return statement of `wrap_model_call` produced the result. -/
inductive GuardExit
  | nonText
  | accepted
  | exhausted
deriving DecidableEq

/-- The body of `wrap_model_call`'s `for attempt in range(1 + max_retries)`
loop.  `handler` is the external model abstracted as an oracle from the
attempt index to its response (each retry carries an escalating hint, so
distinct attempts are distinct calls).  State threaded exactly as in the
source: `attempt` counts handler calls made so far, `remaining` the loop
iterations left, then `best_response` and `best_score`.  Returns the
result, the number of handler calls made, and the exit taken.  The
`privacy_leak` branch of the source only logs before continuing the loop,
so both non-accepting branches recurse identically. -/
def guardGo (cfg : GuardConfig) (handler : Nat → GuardResponse) :
    Nat → Nat → Option GuardResponse → Int → Option GuardResponse × Nat × GuardExit
  | attempt, 0, best, _ => (best, attempt, .exhausted)
  | attempt, remaining + 1, best, bestScore =>
    match (handler attempt).text with
    | none => (some (handler attempt), attempt + 1, .nonText)
    | some content =>
      if cfg.minScore ≤ (evaluateResponse content).1 then
        (some (handler attempt), attempt + 1, .accepted)
      else if (evaluateResponse content).2.contains "privacy_leak" then
        guardGo cfg handler (attempt + 1) remaining
          (if bestScore < (evaluateResponse content).1 then some (handler attempt) else best)
          (if bestScore < (evaluateResponse content).1 then (evaluateResponse content).1
           else bestScore)
      else
        guardGo cfg handler (attempt + 1) remaining
          (if bestScore < (evaluateResponse content).1 then some (handler attempt) else best)
          (if bestScore < (evaluateResponse content).1 then (evaluateResponse content).1
           else bestScore)

/-- `ResponseQualityGuardMiddleware.wrap_model_call`. -/
def wrapModelCall (cfg : GuardConfig) (handler : Nat → GuardResponse) :
    Option GuardResponse × Nat × GuardExit :=
  guardGo cfg handler 0 (1 + cfg.maxRetries) none 0

/-! ## Quality guard: lemmas -/

/-- A privacy-flagged response can score at most 0.50: the evaluation
starts from 1.00, subtracts the fixed 0.50 privacy penalty, and every
other adjustment only subtracts further. -/
theorem evaluateResponse_privacy_le (c : String) (h : privacyHit c = true) :
    (evaluateResponse c).1 ≤ 50 := by
  unfold evaluateResponse
  split
  · simp
  · simp only [h, if_true]
    split_ifs <;> omega

/-- Any result produced through the early-accept return of the retry loop
carries text whose evaluation reached the configured threshold. -/
theorem guardGo_accepted_threshold (cfg : GuardConfig) (handler : Nat → GuardResponse) :
    ∀ (rem attempt : Nat) (best : Option GuardResponse) (bs : Int)
      (r : GuardResponse) (n : Nat),
      guardGo cfg handler attempt rem best bs = (some r, n, .accepted) →
      ∃ c, r.text = some c ∧ cfg.minScore ≤ (evaluateResponse c).1 := by
  intro rem
  induction rem with
  | zero =>
    intro attempt best bs r n h
    simp [guardGo] at h
  | succ k ih =>
    intro attempt best bs r n h
    rw [guardGo] at h
    rcases htext : (handler attempt).text with _ | content
    · rw [htext] at h
      simp at h
    · rw [htext] at h
      simp only at h
      by_cases hsc : cfg.minScore ≤ (evaluateResponse content).1
      · rw [if_pos hsc] at h
        have h2 : handler attempt = r := Option.some.inj (congrArg Prod.fst h)
        exact ⟨content, h2 ▸ htext, hsc⟩
      · rw [if_neg hsc] at h
        split at h
        · exact ih _ _ _ r n h
        · exact ih _ _ _ r n h

/-- The attempt counter returned by the loop is at least the number of
attempts already made when it is entered. -/
theorem guardGo_count_ge (cfg : GuardConfig) (handler : Nat → GuardResponse) :
    ∀ (rem attempt : Nat) (best : Option GuardResponse) (bs : Int),
      attempt ≤ (guardGo cfg handler attempt rem best bs).2.1 := by
  intro rem
  induction rem with
  | zero => intro attempt best bs; simp [guardGo]
  | succ k ih =>
    intro attempt best bs
    rw [guardGo]
    rcases htext : (handler attempt).text with _ | content
    · simp
    · simp only
      by_cases hsc : cfg.minScore ≤ (evaluateResponse content).1
      · rw [if_pos hsc]; simp
      · rw [if_neg hsc]
        split
        · exact le_trans (Nat.le_succ attempt) (ih (attempt + 1) _ _)
        · exact le_trans (Nat.le_succ attempt) (ih (attempt + 1) _ _)

/-! ## Quality guard: claim theorems -/

/-- The deployed configuration: `ResponseQualityGuardMiddleware(max_retries=2,
min_score=0.6)` from `orchestrator.py`. -/
def defaultGuardConfig : GuardConfig := ⟨2, 60⟩

/-- A configuration with pass threshold 0.50, allowed by the constructor's
signature (`min_score: float = 0.6`). -/
def cexGuardConfig : GuardConfig := ⟨2, 50⟩

/-- A response leaking a Chinese mobile-phone number: 30 characters, no
filler phrases, so it evaluates to score 0.50 with the privacy flag. -/
def leakText : String := "您的联系电话 13912345678 请查收，谢谢您的配合。"

/-- The model response carrying `leakText`. -/
def leakResponse : GuardResponse := ⟨some leakText, 7⟩

/-- A clean long Chinese response that evaluates to score 1.00. -/
def goodText : String :=
  "您的订单已经发货，预计三天内可以送达，请您耐心等待，感谢您的支持与配合。"

/-- The model response carrying `goodText`. -/
def goodResponse : GuardResponse := ⟨some goodText, 1⟩

/-- C3 counterexample: with pass threshold 0.50 and full retry budget, the
guard accepts and returns a privacy-flagged response on the very first
attempt, because the early-accept check (`score >= min_score`) runs before
the `privacy_leak` check.  The flagged response's raw score (0.50) meets
the threshold, so the claim's forced-continue fails for this
configuration. -/
theorem quality_guard_privacy_accept_cex :
    "privacy_leak" ∈ (evaluateResponse leakText).2 ∧
    cexGuardConfig.minScore ≤ (evaluateResponse leakText).1 ∧
    0 < cexGuardConfig.maxRetries ∧
    wrapModelCall cexGuardConfig (fun _ => leakResponse) =
      (some leakResponse, 1, .accepted) := by
  decide

/-- C3 (amended): for every configuration whose pass threshold exceeds
0.50 — in particular the deployed 0.6 — a response whose text matches a
privacy pattern is never accepted and returned through the early-accept
path, whatever the handler does: a flagged response scores at most 0.50,
which is below such a threshold.  (For thresholds at or below 0.50 the
early-accept check precedes the privacy check and the counterexample above
applies.) -/
theorem quality_guard_privacy_forced_retry (cfg : GuardConfig)
    (handler : Nat → GuardResponse) (r : GuardResponse) (n : Nat) (c : String)
    (hmin : 50 < cfg.minScore)
    (hrun : wrapModelCall cfg handler = (some r, n, .accepted))
    (htext : r.text = some c) :
    privacyHit c = false := by
  obtain ⟨c', hc', hsc⟩ := guardGo_accepted_threshold cfg handler _ _ _ _ _ _ hrun
  have hcc : c' = c := Option.some.inj (hc' ▸ htext)
  subst hcc
  by_contra hp
  have hle := evaluateResponse_privacy_le c' (Bool.of_not_eq_false hp)
  omega

/-- Witness for C3's amended theorem at the deployed configuration: a clean
response is accepted on attempt one and indeed matches no privacy
pattern. -/
theorem quality_guard_privacy_forced_retry_witness :
    50 < defaultGuardConfig.minScore ∧
    wrapModelCall defaultGuardConfig (fun _ => goodResponse) =
      (some goodResponse, 1, .accepted) ∧
    privacyHit goodText = false :=
  ⟨by decide, by decide,
    quality_guard_privacy_forced_retry defaultGuardConfig (fun _ => goodResponse)
      goodResponse 1 goodText (by decide) (by decide) rfl⟩

/-- C4 failing run: every attempt yields extractable text (`"你好"`), each
scores exactly 0, so `best_response` is never updated from its `None`
initialisation (`score > best_score` is strict) and the guard returns
`None` — no response at all — after exhausting the budget, instead of a
best-effort response. -/
theorem quality_guard_all_zero_returns_none :
    wrapModelCall defaultGuardConfig (fun _ => ⟨some "你好", 0⟩) =
      (none, 3, .exhausted) ∧
    (∀ n : Nat, ((fun _ => (⟨some "你好", 0⟩ : GuardResponse)) n).text ≠ none) ∧
    evaluateResponse "你好" = (0, ["empty_response"]) :=
  ⟨by decide, fun _ => by simp, by decide⟩

/-- C5: a response whose text strips to fewer than 10 characters evaluates
to score exactly 0 with the `empty_response` tag, and — for any positive
retry budget and positive pass threshold — the guard makes at least a
second model call (one retry) rather than returning that response. -/
theorem quality_guard_short_text_retries (cfg : GuardConfig)
    (handler : Nat → GuardResponse) (c : String)
    (hbudget : 0 < cfg.maxRetries) (hmin : 0 < cfg.minScore)
    (h0 : (handler 0).text = some c) (hshort : (pyStrip c).length < 10) :
    evaluateResponse c = (0, ["empty_response"]) ∧
    2 ≤ (wrapModelCall cfg handler).2.1 := by
  have heval : evaluateResponse c = (0, ["empty_response"]) := by
    unfold evaluateResponse
    rw [if_pos]
    simp [hshort]
  refine ⟨heval, ?_⟩
  obtain ⟨mr, ms⟩ := cfg
  simp only at hbudget hmin ⊢
  obtain ⟨k, rfl⟩ : ∃ k, mr = k + 1 := ⟨mr - 1, by omega⟩
  have hstep2 : ∀ (best : Option GuardResponse) (bs : Int),
      2 ≤ (guardGo ⟨k + 1, ms⟩ handler 1 (k + 1) best bs).2.1 := by
    intro best bs
    rw [guardGo]
    rcases htext : (handler 1).text with _ | content
    · simp
    · simp only
      by_cases hsc : ms ≤ (evaluateResponse content).1
      · rw [if_pos hsc]
      · rw [if_neg hsc]
        split
        · exact guardGo_count_ge _ _ _ 2 _ _
        · exact guardGo_count_ge _ _ _ 2 _ _
  show 2 ≤ (guardGo ⟨k + 1, ms⟩ handler 0 (1 + (k + 1)) none 0).2.1
  have h1 : 1 + (k + 1) = (k + 1) + 1 := by omega
  rw [h1, guardGo, h0]
  simp only [heval]
  rw [if_neg (by simpa using by omega : ¬ ms ≤ (0 : Int))]
  split
  · exact hstep2 _ _
  · exact hstep2 _ _

/-- The two-attempt handler of the C5 witness: a 1-character response first,
then a clean long one. -/
def retryHandler : Nat → GuardResponse :=
  fun n => if n = 0 then ⟨some "短", 0⟩ else goodResponse

/-- Witness for C5 at the deployed configuration. -/
theorem quality_guard_short_text_retries_witness :
    0 < defaultGuardConfig.maxRetries ∧ 0 < defaultGuardConfig.minScore ∧
    (retryHandler 0).text = some "短" ∧ (pyStrip "短").length < 10 ∧
    (evaluateResponse "短" = (0, ["empty_response"]) ∧
      2 ≤ (wrapModelCall defaultGuardConfig retryHandler).2.1) :=
  ⟨by decide, by decide, rfl, by decide,
    quality_guard_short_text_retries defaultGuardConfig retryHandler "短"
      (by decide) (by decide) rfl (by decide)⟩

/-! ## Memory middleware: data model

`MemoryMiddleware` handles message objects; only the role, the text
content and the `isinstance(_, ToolMessage)` test matter to the claims, so
a message is a role/content pair (ids are elided: the claims do not
mention them). -/

/-- Message roles of the langchain message classes used by the middleware. -/
inductive Role
  | human
  | ai
  | tool
  | system
deriving DecidableEq

/-- A live message: role plus text content (`extract_text_content` of a
plain string content is the string itself). -/
structure Msg where
  role : Role
  content : String
deriving DecidableEq

/-- Configuration of `MemoryMiddleware` (`max_messages_trigger`,
`max_tokens_trigger`, `messages_to_keep`). -/
structure MemoryConfig where
  maxMessagesTrigger : Nat
  maxTokensTrigger : Nat
  messagesToKeep : Nat
deriving DecidableEq

/-- The deployed settings: `agent_messages_to_trigger = 10`,
`agent_max_tokens_before_summary = 4000`, `agent_messages_to_keep = 4`. -/
def defaultMemoryConfig : MemoryConfig := ⟨10, 4000, 4⟩

/-- `SUMMARY_PREFIX` from the source. -/
def summaryPrefixTag : String := "[历史对话摘要]"

/-- `MemoryMiddleware._should_summarize`: message count or the
character-length token proxy (`len(text) // 3` summed) reaches its
trigger. -/
def shouldSummarize (cfg : MemoryConfig) (messages : List Msg) : Bool :=
  decide (cfg.maxMessagesTrigger ≤ messages.length) ||
  decide (cfg.maxTokensTrigger ≤ (messages.map (fun m => m.content.length / 3)).sum)

/-! ## Memory middleware: the split with Python indexing

`_split_messages` manipulates a Python list with an index that can go
negative, so indexing and slicing are embedded with Python semantics:
`messages[i]` for negative `i` means `messages[len + i]` and raises
(`none`) out of range; `messages[i:]`/`messages[:i]` clamp. -/

/-- Python `messages[i]`: negative indices count from the end; out of
range is `none` (an `IndexError` in the source). -/
def pyGet (msgs : List Msg) (i : Int) : Option Msg :=
  if 0 ≤ i then msgs[i.toNat]?
  else if 0 ≤ (msgs.length : Int) + i then msgs[((msgs.length : Int) + i).toNat]?
  else none

/-- The cut position of Python's `messages[i:]` and `messages[:i]` as a
`Nat` for `List.drop`/`List.take` (negative indices clamp at 0, indices
past the end saturate through `drop`/`take` themselves). -/
def pySliceIdx (len : Nat) (i : Int) : Nat :=
  if 0 ≤ i then i.toNat else ((len : Int) + i).toNat

/-- The `while split_idx < len(messages) and isinstance(messages[split_idx],
ToolMessage): split_idx -= 1` loop.  `none` models the `IndexError` raised
when the index runs past `-len(messages)`; the fuel is an upper bound on
the iteration count (the index only decreases), never reached before a
decision. -/
def severLoop (msgs : List Msg) : Nat → Int → Option Int
  | 0, _ => none
  | fuel + 1, i =>
    if i < (msgs.length : Int) then
      match pyGet msgs i with
      | none => none
      | some m => if m.role = Role.tool then severLoop msgs fuel (i - 1) else some i
    else some i

/-- `MemoryMiddleware._split_messages`: returns
`(messages_to_keep, messages_to_summarize)` — i.e. `(messages[split_idx:],
messages[:split_idx])` — or `none` for the `IndexError` case. -/
def splitMessages (messagesToKeep : Nat) (messages : List Msg) :
    Option (List Msg × List Msg) :=
  if messages.length ≤ messagesToKeep then some (messages, [])
  else
    match severLoop messages (2 * messages.length + 2)
        ((messages.length : Int) - messagesToKeep) with
    | none => none
    | some i =>
      some (messages.drop (pySliceIdx messages.length i),
            messages.take (pySliceIdx messages.length i))

/-- `MemoryMiddleware.before_model` with `enable_summarization = True` (the
deployed value).  `sessionId` is the runtime context's session id;
`summaryText` is the oracle for `_generate_summary(messages_to_summarize)`
(`none` models an exception or a `None` return, and the empty string is
falsy in `if not summary_content`).  The result is the replacement buffer,
`none` meaning the state is left unchanged (the source returns `None`,
including when the split raises and the `except` block runs). -/
def beforeModel (cfg : MemoryConfig) (sessionId : Option String)
    (summaryText : Option String) (messages : List Msg) : Option (List Msg) :=
  if !shouldSummarize cfg messages then none
  else
    match sessionId with
    | none => none
    | some _ =>
      match splitMessages cfg.messagesToKeep messages with
      | none => none
      | some (messagesToKeep, messagesToSummarize) =>
        if messagesToSummarize = [] then none
        else
          match summaryText with
          | none => none
          | some s =>
            if s = "" then none
            else some (⟨Role.human, summaryPrefixTag ++ "\n" ++ s⟩ :: messagesToKeep)

/-! ## Memory middleware: history recovery -/

/-- A persisted `ChatMessage` row as `_recover_history` reads it (role and
content; `None` values are modelled by the empty string, which is equally
falsy in the source's checks). -/
structure DbMsg where
  role : String
  content : String
deriving DecidableEq

/-- `MemoryMiddleware._convert_db_message`. -/
def convertDbMessage (dbMsg : DbMsg) : Option Msg :=
  if dbMsg.role = "" ∨ dbMsg.content = "" then none
  else if dbMsg.role = "human" then some ⟨Role.human, dbMsg.content⟩
  else if dbMsg.role = "ai" then some ⟨Role.ai, dbMsg.content⟩
  else none

/-- `ChatStorageService.get_messages_by_session` on the session's rows in
`created_at` (arrival) order: optionally reverse for `order_desc`, then
apply the SQL `LIMIT` — note `if limit:` treats a limit of 0 like no
limit. -/
def getMessagesBySession (stored : List DbMsg) (limit : Option Nat)
    (orderDesc : Bool) : List DbMsg :=
  let ordered := if orderDesc then stored.reverse else stored
  match limit with
  | none => ordered
  | some n => if n = 0 then ordered else ordered.take n

/-- The no-summary branch of `MemoryMiddleware._recover_history`:
`get_messages_by_session(session_id, limit=self.messages_to_keep,
order_desc=False)` converted row by row. -/
def recoverHistoryNoSummary (cfg : MemoryConfig) (stored : List DbMsg) : List Msg :=
  (getMessagesBySession stored (some cfg.messagesToKeep) false).filterMap convertDbMessage

/-- The history-recovery branch of `MemoryMiddleware.before_agent` for a
fresh execution (live buffer = the one inbound message) of a session with
no persisted summary: seed from `_recover_history`, then append the
current message when it is a `HumanMessage`; when nothing was recovered
the buffer is left as is. -/
def beforeAgentSeed (cfg : MemoryConfig) (stored : List DbMsg) (inbound : Msg) :
    List Msg :=
  let recovered := recoverHistoryNoSummary cfg stored
  if recovered = [] then [inbound]
  else recovered ++ (if inbound.role = Role.human then [inbound] else [])

/-! ## Memory middleware: lemmas -/

/-- When the boundary loop exits normally, the index it returns is either
past the end of the list (only possible with `messages_to_keep = 0`) or
points at a non-tool message. -/
theorem severLoop_some (msgs : List Msg) :
    ∀ (fuel : Nat) (i j : Int), severLoop msgs fuel i = some j →
      (msgs.length : Int) ≤ j ∨ ∃ m, pyGet msgs j = some m ∧ m.role ≠ Role.tool := by
  intro fuel
  induction fuel with
  | zero => intro i j h; exact absurd h (by simp [severLoop])
  | succ k ih =>
    intro i j h
    rw [severLoop] at h
    by_cases hlt : i < (msgs.length : Int)
    · rw [if_pos hlt] at h
      rcases hget : pyGet msgs i with _ | m
      · rw [hget] at h; exact absurd h (by simp)
      · rw [hget] at h
        simp only at h
        by_cases htool : m.role = Role.tool
        · rw [if_pos htool] at h
          exact ih (i - 1) j h
        · rw [if_neg htool] at h
          have hij : i = j := Option.some.inj h
          exact Or.inr ⟨m, hij ▸ hget, htool⟩
    · rw [if_neg hlt] at h
      have hij : i = j := Option.some.inj h
      exact Or.inl (hij ▸ le_of_not_lt hlt)

/-- The head of the Python slice `messages[j:]` is the message at Python
index `j`, whenever that index is in range. -/
theorem drop_pySliceIdx_head (msgs : List Msg) (j : Int) (m : Msg)
    (h : pyGet msgs j = some m) :
    (msgs.drop (pySliceIdx msgs.length j)).head? = some m := by
  unfold pyGet at h
  unfold pySliceIdx
  by_cases h0 : 0 ≤ j
  · rw [if_pos h0] at h
    rw [if_pos h0, List.head?_drop]
    exact h
  · rw [if_neg h0] at h
    rw [if_neg h0]
    by_cases h1 : 0 ≤ (msgs.length : Int) + j
    · rw [if_pos h1] at h
      rw [List.head?_drop]
      exact h
    · rw [if_neg h1] at h
      exact absurd h (by simp)

/-! ## Memory middleware: claim theorems -/

/-- C8: when summary generation fails — `_generate_summary` raises or
returns `None` (`none`), or yields empty text (falsy `""`) — `before_model`
returns `None` and the live buffer is left completely unchanged, for every
configuration, session and buffer. -/
theorem memory_summary_failure_no_change (cfg : MemoryConfig) (sid : Option String)
    (messages : List Msg) :
    beforeModel cfg sid none messages = none ∧
    beforeModel cfg sid (some "") messages = none := by
  constructor <;>
    · unfold beforeModel
      repeat first | rfl | split

/-- A buffer of ten messages in which the message at index 6 — the default
split boundary for `messages_to_keep = 4` — is a tool result paired with
the assistant tool call at index 5. -/
def toolPairMessages : List Msg :=
  [⟨.human, "查询订单一"⟩, ⟨.ai, "好的一"⟩, ⟨.human, "查询订单二"⟩, ⟨.ai, "好的二"⟩,
   ⟨.human, "查询订单三"⟩, ⟨.ai, "调用工具"⟩, ⟨.tool, "工具结果"⟩, ⟨.ai, "答复"⟩,
   ⟨.human, "谢谢"⟩, ⟨.ai, "不客气"⟩]

/-- C2 counterexample: compaction of `toolPairMessages` completes (summary
succeeds), and because the kept window was extended backward across the
tool pair, the resulting buffer has 6 messages — strictly more than
`messages_to_keep + 1 = 5`.  The claimed size bound fails. -/
theorem memory_compaction_size_cex :
    beforeModel defaultMemoryConfig (some "session-1") (some "历史摘要内容") toolPairMessages =
      some (⟨Role.human, summaryPrefixTag ++ "\n" ++ "历史摘要内容"⟩ :: toolPairMessages.drop 5) ∧
    (⟨Role.human, summaryPrefixTag ++ "\n" ++ "历史摘要内容"⟩ :: toolPairMessages.drop 5).length = 6 ∧
    defaultMemoryConfig.messagesToKeep + 1 < 6 := by
  decide

/-- C2 (amended): whenever compaction completes, the new buffer is one
summary message followed by the kept window produced by the split (its
size is the kept window's length plus one), the oldest kept message is
never a tool message, and whenever the message at the default split
boundary (index `length - messages_to_keep`) is not a tool message the
buffer size is exactly `messages_to_keep + 1`.  When the boundary message
is a tool message the backward scan re-positions the window and the bound
can fail in either direction: the window grows past a tool run that ends
at a lower index, and it shrinks when the scan wraps through Python's
negative indices (on `[tool, tool, ai, ai, ai]` with `messages_to_keep =
4` the split exits at index `-1` and compaction yields a 2-message
buffer). -/
theorem memory_compaction_amended (cfg : MemoryConfig) (sid : Option String)
    (summaryText : Option String) (messages buf : List Msg)
    (h : beforeModel cfg sid summaryText messages = some buf) :
    ∃ kept toSummarize s,
      splitMessages cfg.messagesToKeep messages = some (kept, toSummarize) ∧
      buf = ⟨Role.human, summaryPrefixTag ++ "\n" ++ s⟩ :: kept ∧
      toSummarize ++ kept = messages ∧
      buf.length = kept.length + 1 ∧
      (∀ m, kept.head? = some m → m.role ≠ Role.tool) ∧
      (∀ m, pyGet messages ((messages.length : Int) - cfg.messagesToKeep) = some m →
        m.role ≠ Role.tool → buf.length = cfg.messagesToKeep + 1) := by
  unfold beforeModel at h
  split at h
  · exact absurd h (by simp)
  rcases sid with _ | sidv
  · exact absurd h (by simp)
  simp only at h
  rcases hsplit : splitMessages cfg.messagesToKeep messages with _ | ⟨kept, toSummarize⟩
  · rw [hsplit] at h; exact absurd h (by simp)
  rw [hsplit] at h
  simp only at h
  split at h
  · exact absurd h (by simp)
  case _ hne =>
  rcases summaryText with _ | s
  · exact absurd h (by simp)
  simp only at h
  split at h
  · exact absurd h (by simp)
  case _ hs =>
  have hbuf : buf = ⟨Role.human, summaryPrefixTag ++ "\n" ++ s⟩ :: kept :=
    (Option.some.inj h).symm
  unfold splitMessages at hsplit
  split at hsplit
  case isTrue hle =>
    obtain ⟨_, h2⟩ := Prod.mk.inj (Option.some.inj hsplit)
    exact absurd h2.symm hne
  case isFalse hgt =>
  rcases hsev : severLoop messages (2 * messages.length + 2)
      ((messages.length : Int) - cfg.messagesToKeep) with _ | i
  · rw [hsev] at hsplit; exact absurd hsplit (by simp)
  rw [hsev] at hsplit
  simp only at hsplit
  obtain ⟨hkept, htosum⟩ := Prod.mk.inj (Option.some.inj hsplit)
  refine ⟨kept, toSummarize, s, rfl, hbuf, ?_, ?_, ?_, ?_⟩
  · rw [← hkept, ← htosum]
    exact List.take_append_drop _ _
  · rw [hbuf]; simp
  · intro m hm hrole
    rcases severLoop_some messages _ _ _ hsev with hpast | ⟨m', hget', hrole'⟩
    · have hnil : messages.drop (pySliceIdx messages.length i) = [] := by
        rw [List.drop_eq_nil_iff]
        unfold pySliceIdx
        rw [if_pos (le_trans (Int.ofNat_nonneg _) hpast)]
        omega
      rw [← hkept, hnil] at hm
      exact absurd hm (by simp)
    · have hhead := drop_pySliceIdx_head messages i m' hget'
      rw [hkept] at hhead
      have hmm : m = m' := Option.some.inj (hm.symm.trans hhead)
      exact absurd (hmm ▸ hrole) hrole'
  · intro m hget hrole
    have h0le : 0 ≤ (messages.length : Int) - cfg.messagesToKeep := by
      push_neg at hgt
      omega
    have hidx : ((messages.length : Int) - cfg.messagesToKeep).toNat < messages.length := by
      unfold pyGet at hget
      rw [if_pos h0le] at hget
      obtain ⟨hlt, _⟩ := List.getElem?_eq_some.mp hget
      exact hlt
    have hfuel : 2 * messages.length + 2 = (2 * messages.length + 1) + 1 := by omega
    have hsev2 : severLoop messages (2 * messages.length + 2)
        ((messages.length : Int) - cfg.messagesToKeep) =
        some ((messages.length : Int) - cfg.messagesToKeep) := by
      rw [hfuel, severLoop,
        if_pos (by omega :
          (messages.length : Int) - cfg.messagesToKeep < (messages.length : Int)),
        hget]
      dsimp only
      rw [if_neg hrole]
    have hii : (some i : Option Int) =
        some ((messages.length : Int) - cfg.messagesToKeep) := hsev ▸ hsev2
    have hi2 : i = (messages.length : Int) - cfg.messagesToKeep := Option.some.inj hii
    have hc : pySliceIdx messages.length i = messages.length - cfg.messagesToKeep := by
      rw [hi2]
      unfold pySliceIdx
      rw [if_pos h0le]
      omega
    rw [hbuf, ← hkept, hc]
    simp only [List.length_cons, List.length_drop]
    push_neg at hgt
    omega

/-- Ten alternating human/assistant messages with no tool messages: the
compaction boundary falls on a non-tool message. -/
def plainMessages : List Msg :=
  [⟨.human, "问一"⟩, ⟨.ai, "答一"⟩, ⟨.human, "问二"⟩, ⟨.ai, "答二"⟩, ⟨.human, "问三"⟩,
   ⟨.ai, "答三"⟩, ⟨.human, "问四"⟩, ⟨.ai, "答四"⟩, ⟨.human, "问五"⟩, ⟨.ai, "答五"⟩]

/-- Witness for C2's amended theorem: a completed compaction of ten plain
messages at the deployed configuration. -/
theorem memory_compaction_amended_witness :
    ∃ kept toSummarize s,
      splitMessages defaultMemoryConfig.messagesToKeep plainMessages =
        some (kept, toSummarize) ∧
      (⟨Role.human, summaryPrefixTag ++ "\n" ++ "摘要"⟩ :: plainMessages.drop 6) =
        ⟨Role.human, summaryPrefixTag ++ "\n" ++ s⟩ :: kept ∧
      toSummarize ++ kept = plainMessages ∧
      (⟨Role.human, summaryPrefixTag ++ "\n" ++ "摘要"⟩ :: plainMessages.drop 6).length =
        kept.length + 1 ∧
      (∀ m, kept.head? = some m → m.role ≠ Role.tool) ∧
      (∀ m, pyGet plainMessages
          ((plainMessages.length : Int) - defaultMemoryConfig.messagesToKeep) = some m →
        m.role ≠ Role.tool →
        (⟨Role.human, summaryPrefixTag ++ "\n" ++ "摘要"⟩ :: plainMessages.drop 6).length =
          defaultMemoryConfig.messagesToKeep + 1) :=
  memory_compaction_amended defaultMemoryConfig (some "session-2") (some "摘要")
    plainMessages _ (by decide)

/-- Five consecutive tool messages: more than `messages_to_keep = 4`, so the
split runs, and the backward scan walks off the front of the list, wraps
through Python's negative indices, and raises `IndexError` — the split
returns no partition at all for this input. -/
def allToolMessages : List Msg := List.replicate 5 ⟨Role.tool, "工具结果"⟩

/-- C10 counterexample: on a list of five tool messages the split raises
(`none`) instead of producing a partition, so the claim's "for every list
of messages" fails. -/
theorem split_messages_all_tool_cex :
    splitMessages defaultMemoryConfig.messagesToKeep allToolMessages = none ∧
    defaultMemoryConfig.messagesToKeep < allToolMessages.length := by
  decide

/-- C10 (amended): whenever the split completes without raising, it is a
clean partition — summarized prefix concatenated with the kept suffix is
exactly the original list (nothing lost, duplicated or reordered) — and a
list no longer than `messages_to_keep` is kept whole with nothing to
summarize. -/
theorem split_messages_partition (messagesToKeep : Nat)
    (messages kept toSummarize : List Msg)
    (h : splitMessages messagesToKeep messages = some (kept, toSummarize)) :
    toSummarize ++ kept = messages ∧
    (messages.length ≤ messagesToKeep → toSummarize = [] ∧ kept = messages) := by
  unfold splitMessages at h
  split at h
  case isTrue hle =>
    obtain ⟨h1, h2⟩ := Prod.mk.inj (Option.some.inj h)
    subst h1; subst h2
    exact ⟨by simp, fun _ => ⟨rfl, rfl⟩⟩
  case isFalse hgt =>
    rcases hsev : severLoop messages (2 * messages.length + 2)
        ((messages.length : Int) - messagesToKeep) with _ | i
    · rw [hsev] at h; exact absurd h (by simp)
    · rw [hsev] at h
      simp only at h
      obtain ⟨h1, h2⟩ := Prod.mk.inj (Option.some.inj h)
      subst h1; subst h2
      exact ⟨List.take_append_drop _ _, fun hle => absurd hle hgt⟩

/-- Witness for C10's amended theorem on the ten plain messages. -/
theorem split_messages_partition_witness :
    splitMessages defaultMemoryConfig.messagesToKeep plainMessages =
      some (plainMessages.drop 6, plainMessages.take 6) ∧
    (plainMessages.take 6 ++ plainMessages.drop 6 = plainMessages ∧
      (plainMessages.length ≤ defaultMemoryConfig.messagesToKeep →
        plainMessages.take 6 = [] ∧ plainMessages.drop 6 = plainMessages)) :=
  ⟨by decide,
    split_messages_partition defaultMemoryConfig.messagesToKeep plainMessages
      (plainMessages.drop 6) (plainMessages.take 6) (by decide)⟩

/-- Five persisted rows of a session with no summary, in arrival order. -/
def storedFive : List DbMsg :=
  [⟨"human", "第一条"⟩, ⟨"ai", "第二条"⟩, ⟨"human", "第三条"⟩, ⟨"ai", "第四条"⟩,
   ⟨"human", "第五条"⟩]

/-- The new inbound message of the fresh turn. -/
def inboundMsg : Msg := ⟨Role.human, "订单 ORD1 的状态"⟩

/-- C1 failing run: for a session holding five persisted messages and no
summary, with `messages_to_keep = 4`, the recovery seeds the buffer with
the FIRST four persisted messages (ascending `created_at` order plus SQL
`LIMIT 4`) followed by the inbound message — not with the LAST four as the
claim states: the fifth (most recent) persisted message is dropped while
the oldest is kept. -/
theorem history_recovery_first_k_cex :
    beforeAgentSeed defaultMemoryConfig storedFive inboundMsg =
      [⟨Role.human, "第一条"⟩, ⟨Role.ai, "第二条"⟩, ⟨Role.human, "第三条"⟩,
       ⟨Role.ai, "第四条"⟩, inboundMsg] ∧
    beforeAgentSeed defaultMemoryConfig storedFive inboundMsg ≠
      (storedFive.drop (storedFive.length - defaultMemoryConfig.messagesToKeep)).filterMap
        convertDbMessage ++ [inboundMsg] := by
  decide

/-! ## Interrupt handler (`handle_email_decision`)

The decision payload and the original email are Python `dict`s of strings;
they are embedded as association lists with first-match lookup (a Python
dict never holds duplicate keys, and first-match lookup together with a
replace-first update agrees with dict semantics on such lists). -/

/-- A string-to-string Python dict as an association list. -/
abbrev SDict : Type := List (String × String)

/-- `d.get(k)` / `k in d` (presence is `dictGet ≠ none`). -/
def dictGet (d : SDict) (k : String) : Option String :=
  match d with
  | [] => none
  | (k1, v) :: rest => if k1 = k then some v else dictGet rest k

/-- `d[k] = v`: replace the first binding of `k`, or append one. -/
def dictSet (d : SDict) (k v : String) : SDict :=
  match d with
  | [] => [(k, v)]
  | (k1, v1) :: rest => if k1 = k then (k, v) :: rest else (k1, v1) :: dictSet rest k v

/-- The two result shapes of `handle_email_decision`: a send instruction
(`{"action": "send", "email": ..., "message": ...}`) or a cancellation
(`{"action": "cancel", "reason": ..., "message": ...}`). -/
inductive EmailOutcome
  | send (email : SDict) (message : String)
  | cancel (reason : String) (message : String)
deriving DecidableEq

/-- The body of the edit branch: `edited_email = {**original_email}` then
the three `if "edited_…" in decision:` field overwrites, in source
order. -/
def editedEmail (decision originalEmail : SDict) : SDict :=
  let e1 := match dictGet decision "edited_subject" with
            | some v => dictSet originalEmail "subject" v
            | none => originalEmail
  let e2 := match dictGet decision "edited_content" with
            | some v => dictSet e1 "content" v
            | none => e1
  match dictGet decision "edited_to_email" with
  | some v => dictSet e2 "to_email" v
  | none => e2

/-- The function `handle_email_decision(decision, original_email)`.  The
enum members `InterruptDecision.APPROVE/EDIT` are string enums comparing
equal to `"approve"`/`"edit"`; every other value of
`decision.get("decision", "reject")` falls into the reject branch. -/
def handleEmailDecision (decision : SDict) (originalEmail : SDict) : EmailOutcome :=
  let action := (dictGet decision "decision").getD "reject"
  if action = "approve" then
    .send originalEmail "用户已确认，正在发送邮件..."
  else if action = "edit" then
    .send (editedEmail decision originalEmail) "用户已修改内容，正在发送邮件..."
  else
    let reason := (dictGet decision "reason").getD "用户取消发送"
    .cancel reason ("邮件已取消发送。原因: " ++ reason)

/-! ## Interrupt handler: lemmas -/

/-- Updating key `k` makes `k` look up the new value. -/
theorem dictGet_dictSet_same (d : SDict) (k v : String) :
    dictGet (dictSet d k v) k = some v := by
  induction d with
  | nil => simp [dictSet, dictGet]
  | cons kv rest ih =>
    obtain ⟨k1, v1⟩ := kv
    unfold dictSet
    by_cases hk : k1 = k
    · rw [if_pos hk]
      simp [dictGet]
    · rw [if_neg hk]
      unfold dictGet
      rw [if_neg hk]
      exact ih

/-- Updating key `k` leaves every other key's lookup unchanged. -/
theorem dictGet_dictSet_other (d : SDict) (k v k2 : String) (hne : k2 ≠ k) :
    dictGet (dictSet d k v) k2 = dictGet d k2 := by
  have hkk : ¬k = k2 := fun h => hne h.symm
  induction d with
  | nil =>
    unfold dictSet dictGet
    rw [if_neg hkk]
    rfl
  | cons kv rest ih =>
    obtain ⟨k1, v1⟩ := kv
    unfold dictSet
    by_cases hk : k1 = k
    · rw [if_pos hk]
      have hk12 : ¬k1 = k2 := fun h => hne (h.symm.trans hk)
      unfold dictGet
      rw [if_neg hkk, if_neg hk12]
    · rw [if_neg hk]
      unfold dictGet
      by_cases hk2 : k1 = k2
      · rw [if_pos hk2, if_pos hk2]
      · rw [if_neg hk2, if_neg hk2]
        exact ih

/-- Keys other than the three recognized override targets are untouched by
the edit merge. -/
theorem editedEmail_other (d o : SDict) (k : String)
    (h1 : k ≠ "subject") (h2 : k ≠ "content") (h3 : k ≠ "to_email") :
    dictGet (editedEmail d o) k = dictGet o k := by
  unfold editedEmail
  rcases dictGet d "edited_subject" with _ | vs <;>
    rcases dictGet d "edited_content" with _ | vc <;>
      rcases dictGet d "edited_to_email" with _ | vt <;>
        first
          | rfl
          | simp only [dictGet_dictSet_other _ "to_email" _ _ h3,
              dictGet_dictSet_other _ "content" _ _ h2,
              dictGet_dictSet_other _ "subject" _ _ h1]

/-- A supplied `edited_subject` override lands in the merged email. -/
theorem editedEmail_subject_some (d o : SDict) (v : String)
    (hv : dictGet d "edited_subject" = some v) :
    dictGet (editedEmail d o) "subject" = some v := by
  unfold editedEmail
  rw [hv]
  rcases dictGet d "edited_content" with _ | vc <;>
    rcases dictGet d "edited_to_email" with _ | vt <;>
      simp only [
        dictGet_dictSet_other _ "to_email" _ _
          (by decide : ("subject" : String) ≠ "to_email"),
        dictGet_dictSet_other _ "content" _ _
          (by decide : ("subject" : String) ≠ "content"),
        dictGet_dictSet_same]

/-- Without an `edited_subject` override the original subject survives. -/
theorem editedEmail_subject_none (d o : SDict)
    (hv : dictGet d "edited_subject" = none) :
    dictGet (editedEmail d o) "subject" = dictGet o "subject" := by
  unfold editedEmail
  rw [hv]
  rcases dictGet d "edited_content" with _ | vc <;>
    rcases dictGet d "edited_to_email" with _ | vt <;>
      first
        | rfl
        | simp only [
            dictGet_dictSet_other _ "to_email" _ _
              (by decide : ("subject" : String) ≠ "to_email"),
            dictGet_dictSet_other _ "content" _ _
              (by decide : ("subject" : String) ≠ "content")]

/-- A supplied `edited_content` override lands in the merged email. -/
theorem editedEmail_content_some (d o : SDict) (v : String)
    (hv : dictGet d "edited_content" = some v) :
    dictGet (editedEmail d o) "content" = some v := by
  unfold editedEmail
  rw [hv]
  rcases dictGet d "edited_subject" with _ | vs <;>
    rcases dictGet d "edited_to_email" with _ | vt <;>
      simp only [
        dictGet_dictSet_other _ "to_email" _ _
          (by decide : ("content" : String) ≠ "to_email"),
        dictGet_dictSet_same]

/-- Without an `edited_content` override the original body survives. -/
theorem editedEmail_content_none (d o : SDict)
    (hv : dictGet d "edited_content" = none) :
    dictGet (editedEmail d o) "content" = dictGet o "content" := by
  unfold editedEmail
  rw [hv]
  rcases dictGet d "edited_subject" with _ | vs <;>
    rcases dictGet d "edited_to_email" with _ | vt <;>
      first
        | rfl
        | simp only [
            dictGet_dictSet_other _ "to_email" _ _
              (by decide : ("content" : String) ≠ "to_email"),
            dictGet_dictSet_other _ "subject" _ _
              (by decide : ("content" : String) ≠ "subject")]

/-- A supplied `edited_to_email` override lands in the merged email. -/
theorem editedEmail_to_email_some (d o : SDict) (v : String)
    (hv : dictGet d "edited_to_email" = some v) :
    dictGet (editedEmail d o) "to_email" = some v := by
  unfold editedEmail
  rw [hv]
  rcases dictGet d "edited_subject" with _ | vs <;>
    rcases dictGet d "edited_content" with _ | vc <;>
      simp only [dictGet_dictSet_same]

/-- Without an `edited_to_email` override the original recipient
survives. -/
theorem editedEmail_to_email_none (d o : SDict)
    (hv : dictGet d "edited_to_email" = none) :
    dictGet (editedEmail d o) "to_email" = dictGet o "to_email" := by
  unfold editedEmail
  rw [hv]
  rcases dictGet d "edited_subject" with _ | vs <;>
    rcases dictGet d "edited_content" with _ | vc <;>
      first
        | rfl
        | simp only [
            dictGet_dictSet_other _ "content" _ _
              (by decide : ("to_email" : String) ≠ "content"),
            dictGet_dictSet_other _ "subject" _ _
              (by decide : ("to_email" : String) ≠ "subject")]

/-! ## Interrupt handler: claim theorems -/

/-- C6: for every edit decision and every original email, the handler
returns a send instruction whose email is the original parameters with
exactly the recognized override fields (`to_email` — the recipient,
`subject`, `content` — the body) replaced by the caller-supplied values
when present; every other key of the original email is unchanged, and
unrecognized keys of the decision have no effect (the merge reads only the
three `edited_…` keys). -/
theorem interrupt_edit_merge (decision originalEmail : SDict)
    (h : dictGet decision "decision" = some "edit") :
    ∃ e, handleEmailDecision decision originalEmail =
        .send e "用户已修改内容，正在发送邮件..." ∧
      (∀ k, k ≠ "subject" → k ≠ "content" → k ≠ "to_email" →
        dictGet e k = dictGet originalEmail k) ∧
      (∀ v, dictGet decision "edited_subject" = some v →
        dictGet e "subject" = some v) ∧
      (dictGet decision "edited_subject" = none →
        dictGet e "subject" = dictGet originalEmail "subject") ∧
      (∀ v, dictGet decision "edited_content" = some v →
        dictGet e "content" = some v) ∧
      (dictGet decision "edited_content" = none →
        dictGet e "content" = dictGet originalEmail "content") ∧
      (∀ v, dictGet decision "edited_to_email" = some v →
        dictGet e "to_email" = some v) ∧
      (dictGet decision "edited_to_email" = none →
        dictGet e "to_email" = dictGet originalEmail "to_email") := by
  refine ⟨editedEmail decision originalEmail, ?_,
    fun k h1 h2 h3 => editedEmail_other decision originalEmail k h1 h2 h3,
    fun v hv => editedEmail_subject_some decision originalEmail v hv,
    fun hv => editedEmail_subject_none decision originalEmail hv,
    fun v hv => editedEmail_content_some decision originalEmail v hv,
    fun hv => editedEmail_content_none decision originalEmail hv,
    fun v hv => editedEmail_to_email_some decision originalEmail v hv,
    fun hv => editedEmail_to_email_none decision originalEmail hv⟩
  unfold handleEmailDecision
  rw [h]
  rfl

/-- A concrete edit decision overriding the subject only, and an original
email with recipient, subject, body and an extra unrecognized field. -/
def editDecision : SDict :=
  [("decision", "edit"), ("edited_subject", "新主题"), ("unrecognized_key", "x")]

/-- The original email parameters of the witnesses. -/
def originalEmailW : SDict :=
  [("to_email", "buyer@example.com"), ("subject", "旧主题"),
   ("content", "订单已发货"), ("type", "GENERAL")]

/-- Witness for C6 on a concrete edit decision. -/
theorem interrupt_edit_merge_witness :
    ∃ e, handleEmailDecision editDecision originalEmailW =
        .send e "用户已修改内容，正在发送邮件..." ∧
      (∀ k, k ≠ "subject" → k ≠ "content" → k ≠ "to_email" →
        dictGet e k = dictGet originalEmailW k) ∧
      (∀ v, dictGet editDecision "edited_subject" = some v →
        dictGet e "subject" = some v) ∧
      (dictGet editDecision "edited_subject" = none →
        dictGet e "subject" = dictGet originalEmailW "subject") ∧
      (∀ v, dictGet editDecision "edited_content" = some v →
        dictGet e "content" = some v) ∧
      (dictGet editDecision "edited_content" = none →
        dictGet e "content" = dictGet originalEmailW "content") ∧
      (∀ v, dictGet editDecision "edited_to_email" = some v →
        dictGet e "to_email" = some v) ∧
      (dictGet editDecision "edited_to_email" = none →
        dictGet e "to_email" = dictGet originalEmailW "to_email") :=
  interrupt_edit_merge editDecision originalEmailW (by decide)

/-- C7: a reject decision — and any decision whose kind is not one of the
three recognized values — produces a cancellation carrying the supplied
reason (or the default one), and never a send instruction: the
action-execution side effect is not performed. -/
theorem interrupt_reject_cancels (decision originalEmail : SDict) (kind : String)
    (h : dictGet decision "decision" = some kind)
    (ha : kind ≠ "approve") (he : kind ≠ "edit") :
    handleEmailDecision decision originalEmail =
      .cancel ((dictGet decision "reason").getD "用户取消发送")
        ("邮件已取消发送。原因: " ++ (dictGet decision "reason").getD "用户取消发送") ∧
    ∀ e m, handleEmailDecision decision originalEmail ≠ .send e m := by
  have h1 : handleEmailDecision decision originalEmail =
      .cancel ((dictGet decision "reason").getD "用户取消发送")
        ("邮件已取消发送。原因: " ++ (dictGet decision "reason").getD "用户取消发送") := by
    unfold handleEmailDecision
    rw [h, Option.getD_some, if_neg ha, if_neg he]
  exact ⟨h1, fun e m hc => by rw [h1] at hc; exact EmailOutcome.noConfusion hc⟩

/-- Witness for C7 on a concrete reject decision with a reason. -/
theorem interrupt_reject_cancels_witness :
    handleEmailDecision [("decision", "reject"), ("reason", "内容有误")] originalEmailW =
      .cancel
        ((dictGet [("decision", "reject"), ("reason", "内容有误")] "reason").getD "用户取消发送")
        ("邮件已取消发送。原因: " ++
          (dictGet [("decision", "reject"), ("reason", "内容有误")] "reason").getD "用户取消发送") ∧
    ∀ e m, handleEmailDecision [("decision", "reject"), ("reason", "内容有误")] originalEmailW ≠
      .send e m :=
  interrupt_reject_cancels [("decision", "reject"), ("reason", "内容有误")] originalEmailW
    "reject" (by decide) (by decide) (by decide)

/-! ## Session registry (`create_cross_border_agent`)

The factory caches agents in `_agent_cache` keyed by `(user_id,
session_id)` and serializes construction with the global
`_factory_lock`: an unlocked cache probe, then — on a miss — acquire the
lock, re-check the cache, construct, publish, release.  For one fixed key
this is modelled as a transition system over `n` concurrent callers: the
shared state is the published handle (`cache`), the lock owner and a
construction counter (`nextHandle`, also serving as the supply of fresh
handle identities, so its final value counts the constructions); each
caller runs the factory body step by step, with arbitrary interleaving —
strictly more schedules than Python's asyncio allows.  The cache-hit
branch's guard `agent.user_context.user_id == user_context.user_id` is
identically true for callers of one key and is elided. -/

/-- Program counter of one caller of `create_cross_border_agent`. -/
inductive CallerState
  | start
  | waitLock
  | recheck
  | publishing (handle : Nat)
  | finishing (result : Nat)
  | done (result : Nat)
deriving DecidableEq

/-- The caller holds the factory lock in these program points. -/
def inCritical : CallerState → Bool
  | .recheck => true
  | .publishing _ => true
  | .finishing _ => true
  | _ => false

/-- Shared state of the registry for one key plus all callers' states. -/
@[ext]
structure RegistryState (n : Nat) where
  cache : Option Nat
  lock : Option (Fin n)
  nextHandle : Nat
  callers : Fin n → CallerState

/-- All callers at the unlocked cache probe; nothing published. -/
def initState (n : Nat) : RegistryState n :=
  { cache := none, lock := none, nextHandle := 0, callers := fun _ => .start }

/-- One interleaved step of one caller, following the source line by
line: `startHit` is the unlocked cache probe succeeding, `startMiss` its
miss branch heading for the lock, `acquire` is `async with _factory_lock`,
`recheckHit` the double-check returning the published handle, `construct`
the `CrossBorderAgent(...)` construction, `publish` the
`_agent_cache[cache_key] = agent` write (before the lock is released), and
`release` the lock release on return. -/
inductive Step {n : Nat} (s : RegistryState n) : RegistryState n → Prop
  | startHit (i : Fin n) (h : Nat) (hc : s.cache = some h)
      (hi : s.callers i = .start) :
      Step s { s with callers := Function.update s.callers i (.done h) }
  | startMiss (i : Fin n) (hc : s.cache = none) (hi : s.callers i = .start) :
      Step s { s with callers := Function.update s.callers i .waitLock }
  | acquire (i : Fin n) (hl : s.lock = none) (hi : s.callers i = .waitLock) :
      Step s { s with lock := some i,
                      callers := Function.update s.callers i .recheck }
  | recheckHit (i : Fin n) (h : Nat) (hc : s.cache = some h)
      (hi : s.callers i = .recheck) :
      Step s { s with callers := Function.update s.callers i (.finishing h) }
  | construct (i : Fin n) (hc : s.cache = none) (hi : s.callers i = .recheck) :
      Step s { s with nextHandle := s.nextHandle + 1,
                      callers := Function.update s.callers i (.publishing s.nextHandle) }
  | publish (i : Fin n) (h : Nat) (hi : s.callers i = .publishing h) :
      Step s { s with cache := some h,
                      callers := Function.update s.callers i (.finishing h) }
  | release (i : Fin n) (r : Nat) (hi : s.callers i = .finishing r) :
      Step s { s with lock := none,
                      callers := Function.update s.callers i (.done r) }

/-- States reachable from the initial state by interleaved caller steps. -/
inductive Reachable {n : Nat} : RegistryState n → Prop
  | init : Reachable (initState n)
  | tail {s t : RegistryState n} : Reachable s → Step s t → Reachable t

/-- The inductive invariant of the registry: mutual exclusion of the
critical section, at most one construction ever, the published handle and
all locally held handles are handle 0 of that single construction, and a
constructed handle is published before it can be anywhere but in the
constructor's hands. -/
structure Inv {n : Nat} (s : RegistryState n) : Prop where
  mutex : ∀ i : Fin n, inCritical (s.callers i) = true → s.lock = some i
  handleBound : s.nextHandle ≤ 1
  cacheZero : ∀ h : Nat, s.cache = some h → h = 0 ∧ s.nextHandle = 1
  publishingZero : ∀ (i : Fin n) (h : Nat),
    s.callers i = .publishing h → h = 0 ∧ s.nextHandle = 1
  visible : s.nextHandle = 1 →
    s.cache = some 0 ∨ ∃ i : Fin n, s.callers i = .publishing 0
  finishingZero : ∀ (i : Fin n) (r : Nat),
    s.callers i = .finishing r → r = 0 ∧ s.nextHandle = 1
  doneZero : ∀ (i : Fin n) (r : Nat),
    s.callers i = .done r → r = 0 ∧ s.nextHandle = 1

/-- The initial state satisfies the invariant. -/
theorem inv_init (n : Nat) : Inv (initState n) := by
  constructor <;> simp [initState, inCritical]

/-- Every step of any caller preserves the invariant. -/
theorem inv_step {n : Nat} {s t : RegistryState n} (hs : Inv s) (st : Step s t) :
    Inv t := by
  cases st with
  | startHit i h hc hi =>
    obtain ⟨hz, hn⟩ := hs.cacheZero h hc
    subst hz
    refine ⟨?_, ?_, ?_, ?_, ?_, ?_, ?_⟩ <;> dsimp only
    · intro j hcrit
      rcases eq_or_ne j i with rfl | hne
      · rw [Function.update_same] at hcrit
        simp [inCritical] at hcrit
      · rw [Function.update_noteq hne] at hcrit
        exact hs.mutex j hcrit
    · exact hs.handleBound
    · exact hs.cacheZero
    · intro j hp hyp
      rcases eq_or_ne j i with rfl | hne
      · rw [Function.update_same] at hyp
        exact CallerState.noConfusion hyp
      · rw [Function.update_noteq hne] at hyp
        exact hs.publishingZero j hp hyp
    · intro h1
      rcases hs.visible h1 with hcache | ⟨j, hj⟩
      · exact Or.inl hcache
      · have hne : j ≠ i := by
          intro he
          rw [he, hi] at hj
          exact CallerState.noConfusion hj
        exact Or.inr ⟨j, by rw [Function.update_noteq hne]; exact hj⟩
    · intro j r hyp
      rcases eq_or_ne j i with rfl | hne
      · rw [Function.update_same] at hyp
        exact CallerState.noConfusion hyp
      · rw [Function.update_noteq hne] at hyp
        exact hs.finishingZero j r hyp
    · intro j r hyp
      rcases eq_or_ne j i with rfl | hne
      · rw [Function.update_same] at hyp
        injection hyp with h2
        exact ⟨h2.symm, hn⟩
      · rw [Function.update_noteq hne] at hyp
        exact hs.doneZero j r hyp
  | startMiss i hc hi =>
    refine ⟨?_, ?_, ?_, ?_, ?_, ?_, ?_⟩ <;> dsimp only
    · intro j hcrit
      rcases eq_or_ne j i with rfl | hne
      · rw [Function.update_same] at hcrit
        simp [inCritical] at hcrit
      · rw [Function.update_noteq hne] at hcrit
        exact hs.mutex j hcrit
    · exact hs.handleBound
    · exact hs.cacheZero
    · intro j hp hyp
      rcases eq_or_ne j i with rfl | hne
      · rw [Function.update_same] at hyp
        exact CallerState.noConfusion hyp
      · rw [Function.update_noteq hne] at hyp
        exact hs.publishingZero j hp hyp
    · intro h1
      rcases hs.visible h1 with hcache | ⟨j, hj⟩
      · exact Or.inl hcache
      · have hne : j ≠ i := by
          intro he
          rw [he, hi] at hj
          exact CallerState.noConfusion hj
        exact Or.inr ⟨j, by rw [Function.update_noteq hne]; exact hj⟩
    · intro j r hyp
      rcases eq_or_ne j i with rfl | hne
      · rw [Function.update_same] at hyp
        exact CallerState.noConfusion hyp
      · rw [Function.update_noteq hne] at hyp
        exact hs.finishingZero j r hyp
    · intro j r hyp
      rcases eq_or_ne j i with rfl | hne
      · rw [Function.update_same] at hyp
        exact CallerState.noConfusion hyp
      · rw [Function.update_noteq hne] at hyp
        exact hs.doneZero j r hyp
  | acquire i hl hi =>
    refine ⟨?_, ?_, ?_, ?_, ?_, ?_, ?_⟩ <;> dsimp only
    · intro j hcrit
      rcases eq_or_ne j i with rfl | hne
      · rfl
      · rw [Function.update_noteq hne] at hcrit
        have h1 := hs.mutex j hcrit
        rw [hl] at h1
        exact Option.noConfusion h1
    · exact hs.handleBound
    · exact hs.cacheZero
    · intro j hp hyp
      rcases eq_or_ne j i with rfl | hne
      · rw [Function.update_same] at hyp
        exact CallerState.noConfusion hyp
      · rw [Function.update_noteq hne] at hyp
        exact hs.publishingZero j hp hyp
    · intro h1
      rcases hs.visible h1 with hcache | ⟨j, hj⟩
      · exact Or.inl hcache
      · have hne : j ≠ i := by
          intro he
          rw [he, hi] at hj
          exact CallerState.noConfusion hj
        exact Or.inr ⟨j, by rw [Function.update_noteq hne]; exact hj⟩
    · intro j r hyp
      rcases eq_or_ne j i with rfl | hne
      · rw [Function.update_same] at hyp
        exact CallerState.noConfusion hyp
      · rw [Function.update_noteq hne] at hyp
        exact hs.finishingZero j r hyp
    · intro j r hyp
      rcases eq_or_ne j i with rfl | hne
      · rw [Function.update_same] at hyp
        exact CallerState.noConfusion hyp
      · rw [Function.update_noteq hne] at hyp
        exact hs.doneZero j r hyp
  | recheckHit i h hc hi =>
    obtain ⟨hz, hn⟩ := hs.cacheZero h hc
    subst hz
    refine ⟨?_, ?_, ?_, ?_, ?_, ?_, ?_⟩ <;> dsimp only
    · intro j hcrit
      rcases eq_or_ne j i with rfl | hne
      · exact hs.mutex j (by rw [hi]; rfl)
      · rw [Function.update_noteq hne] at hcrit
        exact hs.mutex j hcrit
    · exact hs.handleBound
    · exact hs.cacheZero
    · intro j hp hyp
      rcases eq_or_ne j i with rfl | hne
      · rw [Function.update_same] at hyp
        exact CallerState.noConfusion hyp
      · rw [Function.update_noteq hne] at hyp
        exact hs.publishingZero j hp hyp
    · intro h1
      rcases hs.visible h1 with hcache | ⟨j, hj⟩
      · exact Or.inl hcache
      · have hne : j ≠ i := by
          intro he
          rw [he, hi] at hj
          exact CallerState.noConfusion hj
        exact Or.inr ⟨j, by rw [Function.update_noteq hne]; exact hj⟩
    · intro j r hyp
      rcases eq_or_ne j i with rfl | hne
      · rw [Function.update_same] at hyp
        injection hyp with h2
        exact ⟨h2.symm, hn⟩
      · rw [Function.update_noteq hne] at hyp
        exact hs.finishingZero j r hyp
    · intro j r hyp
      rcases eq_or_ne j i with rfl | hne
      · rw [Function.update_same] at hyp
        exact CallerState.noConfusion hyp
      · rw [Function.update_noteq hne] at hyp
        exact hs.doneZero j r hyp
  | construct i hc hi =>
    have hn0 : s.nextHandle = 0 := by
      by_contra hne0
      have h1 : s.nextHandle = 1 := by
        have := hs.handleBound
        omega
      rcases hs.visible h1 with hcache | ⟨j, hj⟩
      · rw [hc] at hcache
        exact Option.noConfusion hcache
      · have hlj := hs.mutex j (by rw [hj]; rfl)
        have hli := hs.mutex i (by rw [hi]; rfl)
        have hji : j = i := by
          rw [hlj] at hli
          exact Option.some.inj hli
        rw [hji, hi] at hj
        exact CallerState.noConfusion hj
    refine ⟨?_, ?_, ?_, ?_, ?_, ?_, ?_⟩ <;> dsimp only
    · intro j hcrit
      rcases eq_or_ne j i with rfl | hne
      · exact hs.mutex j (by rw [hi]; rfl)
      · rw [Function.update_noteq hne] at hcrit
        exact hs.mutex j hcrit
    · omega
    · intro h hcc
      rw [hc] at hcc
      exact Option.noConfusion hcc
    · intro j hp hyp
      rcases eq_or_ne j i with rfl | hne
      · rw [Function.update_same] at hyp
        injection hyp with h2
        constructor
        · omega
        · omega
      · rw [Function.update_noteq hne] at hyp
        obtain ⟨_, h1⟩ := hs.publishingZero j hp hyp
        exact absurd h1 (by rw [hn0]; decide)
    · intro _
      refine Or.inr ⟨i, ?_⟩
      rw [Function.update_same, hn0]
    · intro j r hyp
      rcases eq_or_ne j i with rfl | hne
      · rw [Function.update_same] at hyp
        exact CallerState.noConfusion hyp
      · rw [Function.update_noteq hne] at hyp
        obtain ⟨_, h1⟩ := hs.finishingZero j r hyp
        exact absurd h1 (by rw [hn0]; decide)
    · intro j r hyp
      rcases eq_or_ne j i with rfl | hne
      · rw [Function.update_same] at hyp
        exact CallerState.noConfusion hyp
      · rw [Function.update_noteq hne] at hyp
        obtain ⟨_, h1⟩ := hs.doneZero j r hyp
        exact absurd h1 (by rw [hn0]; decide)
  | publish i h hi =>
    obtain ⟨hz, hn⟩ := hs.publishingZero i h hi
    subst hz
    refine ⟨?_, ?_, ?_, ?_, ?_, ?_, ?_⟩ <;> dsimp only
    · intro j hcrit
      rcases eq_or_ne j i with rfl | hne
      · exact hs.mutex j (by rw [hi]; rfl)
      · rw [Function.update_noteq hne] at hcrit
        exact hs.mutex j hcrit
    · exact hs.handleBound
    · intro h2 hcc
      exact ⟨(Option.some.inj hcc).symm, hn⟩
    · intro j hp hyp
      rcases eq_or_ne j i with rfl | hne
      · rw [Function.update_same] at hyp
        exact CallerState.noConfusion hyp
      · rw [Function.update_noteq hne] at hyp
        exact hs.publishingZero j hp hyp
    · intro _
      exact Or.inl rfl
    · intro j r hyp
      rcases eq_or_ne j i with rfl | hne
      · rw [Function.update_same] at hyp
        injection hyp with h2
        exact ⟨h2.symm, hn⟩
      · rw [Function.update_noteq hne] at hyp
        exact hs.finishingZero j r hyp
    · intro j r hyp
      rcases eq_or_ne j i with rfl | hne
      · rw [Function.update_same] at hyp
        exact CallerState.noConfusion hyp
      · rw [Function.update_noteq hne] at hyp
        exact hs.doneZero j r hyp
  | release i r hi =>
    obtain ⟨hz, hn⟩ := hs.finishingZero i r hi
    subst hz
    refine ⟨?_, ?_, ?_, ?_, ?_, ?_, ?_⟩ <;> dsimp only
    · intro j hcrit
      rcases eq_or_ne j i with rfl | hne
      · rw [Function.update_same] at hcrit
        simp [inCritical] at hcrit
      · rw [Function.update_noteq hne] at hcrit
        have h1 := hs.mutex j hcrit
        have h2 := hs.mutex i (by rw [hi]; rfl)
        rw [h2] at h1
        exact absurd (Option.some.inj h1).symm hne
    · exact hs.handleBound
    · exact hs.cacheZero
    · intro j hp hyp
      rcases eq_or_ne j i with rfl | hne
      · rw [Function.update_same] at hyp
        exact CallerState.noConfusion hyp
      · rw [Function.update_noteq hne] at hyp
        exact hs.publishingZero j hp hyp
    · intro h1
      rcases hs.visible h1 with hcache | ⟨j, hj⟩
      · exact Or.inl hcache
      · have hne : j ≠ i := by
          intro he
          rw [he, hi] at hj
          exact CallerState.noConfusion hj
        exact Or.inr ⟨j, by rw [Function.update_noteq hne]; exact hj⟩
    · intro j r2 hyp
      rcases eq_or_ne j i with rfl | hne
      · rw [Function.update_same] at hyp
        exact CallerState.noConfusion hyp
      · rw [Function.update_noteq hne] at hyp
        exact hs.finishingZero j r2 hyp
    · intro j r2 hyp
      rcases eq_or_ne j i with rfl | hne
      · rw [Function.update_same] at hyp
        injection hyp with h2
        exact ⟨h2.symm, hn⟩
      · rw [Function.update_noteq hne] at hyp
        exact hs.doneZero j r2 hyp

/-- Every reachable registry state satisfies the invariant. -/
theorem inv_reachable {n : Nat} {s : RegistryState n} (hr : Reachable s) : Inv s := by
  induction hr with
  | init => exact inv_init n
  | tail _ st ih => exact inv_step ih st

/-- C9: in every reachable state in which some caller has completed,
exactly one handle was ever constructed (`nextHandle = 1` counts
constructions), that caller holds handle 0, whenever the construction lock
is free the constructed handle is already published in the cache (publish
happens before release), and every completed caller observed the same
handle. -/
theorem session_registry_single_construction {n : Nat} (s : RegistryState n)
    (hr : Reachable s) (i : Fin n) (r : Nat) (hd : s.callers i = .done r) :
    s.nextHandle = 1 ∧ r = 0 ∧ (s.lock = none → s.cache = some 0) ∧
    (∀ j : Fin n, ∀ rj : Nat, s.callers j = .done rj → rj = r) := by
  have hinv := inv_reachable hr
  obtain ⟨hr0, hn1⟩ := hinv.doneZero i r hd
  refine ⟨hn1, hr0, ?_, ?_⟩
  · intro hlock
    rcases hinv.visible hn1 with hcache | ⟨j, hj⟩
    · exact hcache
    · have hmj := hinv.mutex j (by rw [hj]; rfl)
      rw [hlock] at hmj
      exact Option.noConfusion hmj
  · intro j rj hj
    obtain ⟨hrj, _⟩ := hinv.doneZero j rj hj
    rw [hrj, hr0]

/-- The final state of the two-caller witness schedule: handle 0 published,
lock free, one construction, both callers done with handle 0. -/
def registryFinal : RegistryState 2 :=
  { cache := some 0, lock := none, nextHandle := 1, callers := fun _ => .done 0 }

/-- A concrete interleaving of two concurrent first-turn callers: both miss
the unlocked probe, caller 0 wins the lock, constructs and publishes,
caller 1 then acquires the lock and finds the published handle at the
re-check. -/
theorem reach_registryFinal : Reachable registryFinal := by
  have h0 : Reachable (initState 2) := Reachable.init
  have h1 := h0.tail (Step.startMiss 0 (by decide) (by decide))
  have h2 := h1.tail (Step.startMiss 1 (by decide) (by decide))
  have h3 := h2.tail (Step.acquire 0 (by decide) (by decide))
  have h4 := h3.tail (Step.construct 0 (by decide) (by decide))
  have h5 := h4.tail (Step.publish 0 0 (by decide))
  have h6 := h5.tail (Step.release 0 0 (by decide))
  have h7 := h6.tail (Step.acquire 1 (by decide) (by decide))
  have h8 := h7.tail (Step.recheckHit 1 0 (by decide) (by decide))
  have h9 := h8.tail (Step.release 1 0 (by decide))
  convert h9 using 1
  refine RegistryState.ext (by decide) (by decide) (by decide)
    (funext fun j => ?_)
  fin_cases j <;> decide

/-- Witness for C9 on the two-caller schedule above. -/
theorem session_registry_single_construction_witness :
    registryFinal.callers 0 = CallerState.done 0 ∧
    (registryFinal.nextHandle = 1 ∧ 0 = 0 ∧
      (registryFinal.lock = none → registryFinal.cache = some 0) ∧
      (∀ j : Fin 2, ∀ rj : Nat, registryFinal.callers j = .done rj → rj = 0)) :=
  ⟨rfl, session_registry_single_construction registryFinal reach_registryFinal 0 0 rfl⟩

end TradeAgent
